import Mathlib

/-!
# Verification of the `mr-perf-panel-maker` core engine

Shallow embedding of `src/engine/panelEngine.ts` (axis tiling solver,
layout composer, aperture/halftoning engine) and proofs about it.

Modelling conventions:
* JavaScript numbers are idealized as exact rationals `ℚ`.  Where the code
  can produce the IEEE values `NaN`, `+Infinity` or `-Infinity` (only the
  hole-diameter computation in `computeAllHoles` can, through the unguarded
  division `brightness / thresh`), we use the four-case type `JNum` which
  mirrors the IEEE special values and JavaScript's propagation rules for
  the operations that actually occur.
* `Math.pow` on a finite base is transcendental; it is abstracted as a
  parameter `powFn : ℚ → ℚ → JNum` (it may return `nan`/infinities, as IEEE
  pow can for negative bases or a zero base with negative exponent).  The
  special-value cases of `Math.pow` that are decided by JavaScript itself
  (exponent `0`, or a `NaN`/infinite base) are modelled exactly in `jpow`;
  every theorem below is quantified over `powFn`.
* `Array.prototype.sort` is required by ECMAScript 2019+ to be stable; for a
  consistent comparator every stable sort produces the same permutation.  The
  model fixes a stable insertion sort (`jsSort`).  (For an inconsistent
  comparator — which the 0.003-tolerance comparators below can be — the
  ECMAScript result is implementation-defined; the model is one valid choice.)
* `Record<number, number>` is modelled as an association list in insertion
  order with unique keys (`recordAdd` keeps keys unique, exactly as property
  assignment does).  `Object.entries`/`Object.keys` enumerate array-index-like
  keys in ascending order first, then the remaining keys in insertion order;
  `jsEntries` models this.  All consumers in the source either re-sort the
  entries or only take their number, so only the multiset of entries is ever
  observable.
* Strings that are display-only (`label`, `sizeLabel`, `desc`,
  `describeCounts`) are modelled by the data they render, not by the
  rendered text; no claim depends on string formatting.
-/

set_option allowUnsafeReducibility true
attribute [local semireducible] Rat.add Rat.mul Rat.div Rat.sub Rat.neg Rat.inv Rat.ofScientific

namespace PerfPanel

/-! ## JavaScript number semantics for the hole-diameter computation -/

/-- A JavaScript number: `NaN`, `+Infinity`, `-Infinity`, or a finite value
(idealized as a rational). -/
inductive JNum where
  | nan
  | inf
  | ninf
  | num (q : ℚ)
deriving DecidableEq, Repr

/-- JS division of two finite values: `0/0 = NaN`, `x/0 = ±Infinity` for
`x ≠ 0` (the rational zero stands for IEEE `+0`). -/
def jdivQ (a b : ℚ) : JNum :=
  if b = 0 then (if a = 0 then .nan else if 0 < a then .inf else .ninf)
  else .num (a / b)

/-- JS subtraction with IEEE special-value propagation. -/
def jsub : JNum → JNum → JNum
  | .nan, _ => .nan
  | _, .nan => .nan
  | .inf, .inf => .nan
  | .inf, _ => .inf
  | .ninf, .ninf => .nan
  | .ninf, _ => .ninf
  | .num _, .inf => .ninf
  | .num _, .ninf => .inf
  | .num a, .num b => .num (a - b)

/-- JS addition with IEEE special-value propagation. -/
def jadd : JNum → JNum → JNum
  | .nan, _ => .nan
  | _, .nan => .nan
  | .inf, .ninf => .nan
  | .inf, _ => .inf
  | .ninf, .inf => .nan
  | .ninf, _ => .ninf
  | .num _, .inf => .inf
  | .num _, .ninf => .ninf
  | .num a, .num b => .num (a + b)

/-- JS multiplication with IEEE special-value propagation (`±∞ · 0 = NaN`). -/
def jmul : JNum → JNum → JNum
  | .nan, _ => .nan
  | _, .nan => .nan
  | .inf, .inf => .inf
  | .inf, .ninf => .ninf
  | .ninf, .inf => .ninf
  | .ninf, .ninf => .inf
  | .inf, .num q => if q = 0 then .nan else if 0 < q then .inf else .ninf
  | .num q, .inf => if q = 0 then .nan else if 0 < q then .inf else .ninf
  | .ninf, .num q => if q = 0 then .nan else if 0 < q then .ninf else .inf
  | .num q, .ninf => if q = 0 then .nan else if 0 < q then .ninf else .inf
  | .num a, .num b => .num (a * b)

/-- JS `Math.min` (NaN-propagating). -/
def jmin : JNum → JNum → JNum
  | .nan, _ => .nan
  | _, .nan => .nan
  | .ninf, _ => .ninf
  | _, .ninf => .ninf
  | .inf, y => y
  | x, .inf => x
  | .num a, .num b => .num (min a b)

/-- JS `Math.max` (NaN-propagating). -/
def jmax : JNum → JNum → JNum
  | .nan, _ => .nan
  | _, .nan => .nan
  | .inf, _ => .inf
  | _, .inf => .inf
  | .ninf, y => y
  | x, .ninf => x
  | .num a, .num b => .num (max a b)

/-- JS `Math.abs`. -/
def jabs : JNum → JNum
  | .nan => .nan
  | .inf => .inf
  | .ninf => .inf
  | .num q => .num |q|

/-- JS `<` comparison: any comparison involving `NaN` is `false`. -/
def jlt : JNum → JNum → Bool
  | .nan, _ => false
  | _, .nan => false
  | .inf, _ => false
  | .ninf, .ninf => false
  | .ninf, _ => true
  | .num _, .inf => true
  | .num _, .ninf => false
  | .num a, .num b => decide (a < b)

/-- Is the rational an odd integer (used by `Math.pow` at `-Infinity`)? -/
def oddIntQ (g : ℚ) : Bool := g.den = 1 && decide (g.num % 2 ≠ 0)

/-- JS `Math.pow` on a possibly special base.  The finite-base case is the
abstract parameter `powFn`; the cases JavaScript decides by itself
(`pow (x, 0) = 1` for every `x`, `NaN` base, infinite base) are exact. -/
def jpow (powFn : ℚ → ℚ → JNum) (x : JNum) (g : ℚ) : JNum :=
  if g = 0 then .num 1
  else match x with
  | .nan => .nan
  | .inf => if 0 < g then .inf else .num 0
  | .ninf => if 0 < g then (if oddIntQ g then .ninf else .inf) else .num 0
  | .num q => powFn q g

/-! ## JS helpers: floor, round, parseInt, stable sort, record operations -/

/-- JS `Math.floor` on a finite value. -/
def jsFloor (q : ℚ) : ℤ := q.floor

/-- JS `Math.round` on a finite value (half-up, toward `+∞`). -/
def jsRound (q : ℚ) : ℤ := (q + 1/2).floor

/-- JS `parseInt` applied to the decimal rendering of a finite number:
truncation toward zero.  (For `|q| ≥ 1e21` or `0 < |q| < 1e-6` JavaScript
renders in exponential notation and `parseInt` would misparse; no input
considered here is in that range.) -/
def jsParseInt (q : ℚ) : ℚ := if 0 ≤ q then (q.floor : ℚ) else -(((-q).floor : ℚ))

/-- One step of stable insertion: place `x` after every `y` with `le y x`. -/
def insertS (le : α → α → Bool) (x : α) : List α → List α
  | [] => [x]
  | y :: ys => if le y x then y :: insertS le x ys else x :: y :: ys

/-- Model of `Array.prototype.sort` with comparator `cmp`:
`le a b` stands for `cmp a b ≤ 0`.  A stable insertion sort. -/
def jsSort (le : α → α → Bool) (l : List α) : List α :=
  l.foldl (fun acc x => insertS le x acc) []

/-- Property assignment `counts[size] = (counts[size] || 0) + n` on a record
modelled as an association list: update in place if the key is present
(keys stay unique), otherwise append.  Note this *creates* the key even when
`n = 0`, exactly as JavaScript property assignment does. -/
def recordAdd (counts : List (ℚ × ℕ)) (size : ℚ) (n : ℕ) : List (ℚ × ℕ) :=
  if counts.any (fun p => p.1 = size) then
    counts.map (fun p => if p.1 = size then (p.1, p.2 + n) else p)
  else counts ++ [(size, n)]

/-- Is `q` (as a JS property key) an array-index-like key (a nonnegative
integer below `2^32`)?  Such keys enumerate in ascending order. -/
def isArrayIndex (q : ℚ) : Bool := decide (0 ≤ q) && decide (q.den = 1) && decide (q < 2 ^ 32)

/-- `Object.entries` enumeration order: array-index-like keys in ascending
order first, then the remaining keys in insertion order. -/
def jsEntries (counts : List (ℚ × ℕ)) : List (ℚ × ℕ) :=
  jsSort (fun p q => decide (p.1 ≤ q.1)) (counts.filter (fun p => isArrayIndex p.1)) ++
    counts.filter (fun p => ¬ isArrayIndex p.1)

/-! ## Layout solver (`solveAxis`, panelEngine.ts lines 44–94) -/

/-- One way to tile a linear wall dimension.  `counts` is the snapshot of the
search's count record (it can contain zero-count keys for sizes that were
examined with `n = 0`, exactly as the JavaScript record does). -/
structure AxisSolution where
  counts : List (ℚ × ℕ)
  total : ℚ
  coverage : ℚ
  numPanels : ℕ
deriving DecidableEq, Repr

/-- The values of the loop variable `n` in
`for (let n = 0; n <= Math.min(maxN, 30); n++)` where
`maxN = Math.floor(numer / denom)`: an ascending range, empty when the bound
is negative or `NaN` (`0/0`), capped at 30 when `maxN = +∞` (`numer/0`,
`numer > 0`). -/
def jsLoopIters (numer denom : ℚ) : List ℕ :=
  if denom = 0 then (if 0 < numer then List.range 31 else [])
  else
    let m : ℤ := min (jsFloor (numer / denom)) 30
    if m < 0 then [] else List.range (m.toNat + 1)

/-- The recursive enumeration `recurse` inside `solveAxis`.  `rest` is the
still-unprocessed suffix of the descending-sorted size list.  Every call
first prunes on `totalWithGaps > wallDim + gap + 0.01`, then records the
current assignment when non-empty, then branches on the count of the next
size.  (`Math.max(0, numPanels - 1)` is natural subtraction on `ℕ`.) -/
def recAx (w gap : ℚ) : List ℚ → ℚ → ℕ → List (ℚ × ℕ) → List AxisSolution
  | [], totalDim, numPanels, counts =>
    let twg := totalDim + ((numPanels - 1 : ℕ) : ℚ) * gap
    if w + gap + 1/100 < twg then []
    else if 0 < numPanels then [⟨counts, twg, twg / w, numPanels⟩] else []
  | size :: rest, totalDim, numPanels, counts =>
    let twg := totalDim + ((numPanels - 1 : ℕ) : ℚ) * gap
    if w + gap + 1/100 < twg then []
    else
      (if 0 < numPanels then [⟨counts, twg, twg / w, numPanels⟩] else []) ++
      (jsLoopIters (w - twg + gap) (size + if 0 < numPanels then gap else 0)).flatMap
        (fun n => recAx w gap rest (totalDim + (n : ℚ) * size) (numPanels + n)
          (recordAdd counts size n))

/-- The candidate list before ranking: the enumeration run on the sizes
sorted descending (`sizes.slice().sort((a, b) => b - a)`). -/
def solveAxisResults (w gap : ℚ) (sizes : List ℚ) : List AxisSolution :=
  recAx w gap (jsSort (fun a b => decide (b ≤ a)) sizes) 0 0 []

/-- The ranking comparator of `solveAxis`, as the relation `cmp a b ≤ 0`:
descending coverage with differences of at most `0.003` treated as ties,
then ascending number of record keys (`Object.keys(counts).length` — this
counts zero-count keys too), then ascending panel count. -/
def axisCmpLe (a b : AxisSolution) : Bool :=
  let cd := b.coverage - a.coverage
  if 3/1000 < |cd| then decide (cd ≤ 0)
  else if a.counts.length ≠ b.counts.length then decide (a.counts.length ≤ b.counts.length)
  else decide (a.numPanels ≤ b.numPanels)

/-- The deduplication signature: the record's entries sorted by key
ascending (`Object.entries(r.counts).sort(...).map(k:v).join(',')`; the
joined string is injective in the sorted entry list, so the entry list
itself serves as the signature).  Zero-count entries are part of the
signature. -/
def sigEntries (counts : List (ℚ × ℕ)) : List (ℚ × ℕ) :=
  jsSort (fun p q => decide (p.1 ≤ q.1)) (jsEntries counts)

/-- The dedup pass of `solveAxis`: keep the first occurrence of each
signature. -/
def dedupGo (seen : List (List (ℚ × ℕ))) : List AxisSolution → List AxisSolution
  | [] => []
  | r :: rest =>
    let k := sigEntries r.counts
    if k ∈ seen then dedupGo seen rest else r :: dedupGo (k :: seen) rest

/-- `solveAxis(wallDim, gap, sizes)`: enumerate, rank, deduplicate, return at
most 12. -/
def solveAxis (w gap : ℚ) (sizes : List ℚ) : List AxisSolution :=
  if sizes = [] then []
  else (dedupGo [] (jsSort axisCmpLe (solveAxisResults w gap sizes))).take 12

/-! ## `arrangeAxis` (panelEngine.ts lines 96–110) -/

/-- `Math.max(...l)` for a non-empty list (the empty case, `-Infinity`, is
unreachable where this is used: `arrangeAxis` only reaches it with at least
3 elements, and `computeAllHoles` resolves the empty case separately). -/
def jsMaxList : List ℚ → ℚ
  | [] => 0
  | x :: xs => xs.foldl max x

/-- The expansion step of `arrangeAxis`: entries (with keys run through
`parseInt`) sorted ascending by key, each size repeated `count` times. -/
def arrangeAll (counts : List (ℚ × ℕ)) : List ℚ :=
  (jsSort (fun p q => decide (p.1 ≤ q.1))
      ((jsEntries counts).map (fun p => (jsParseInt p.1, p.2)))).flatMap
    (fun p => List.replicate p.2 p.1)

/-- The main branch of `arrangeAxis` (lines 104–109): the runs of the
largest length (`Math.max(...all)`) go to the middle, the strictly smaller
lengths are split around it, the first `Math.ceil(edges.length / 2)` of them
on the left. -/
def arrangeCore (all : List ℚ) : List ℚ :=
  let largest := jsMaxList all
  let edges := all.filter (fun p => decide (p < largest))
  let middles := all.filter (fun p => decide (p = largest))
  let leftEdge := edges.take ((edges.length + 1) / 2)
  let rightEdge := edges.drop ((edges.length + 1) / 2)
  leftEdge ++ middles ++ rightEdge

/-- `arrangeAxis(counts)`: expand the count record into an ordered sequence;
with more than two panels, center the largest length (see `arrangeCore`). -/
def arrangeAxis (counts : List (ℚ × ℕ)) : List ℚ :=
  let all := arrangeAll counts
  if all.length ≤ 2 then all else arrangeCore all

/-! ## Data model (types.ts, restricted to the fields the core reads) -/

/-- A hole (aperture): local position within its panel and diameter. -/
structure PanelHole where
  x : ℚ
  y : ℚ
  d : ℚ
deriving DecidableEq, Repr

/-- A panel instance.  `label` models `String.fromCharCode(65 + r) + (c+1)`
by the pair (character code, column number); `sizeLabel` models the string
`` `${pw}"x${ph}"` `` by the pair of dimensions. -/
structure Panel where
  x : ℚ
  y : ℚ
  w : ℚ
  h : ℚ
  col : ℕ
  row : ℕ
  label : ℕ × ℕ
  sizeLabel : ℚ × ℚ
  holes : List PanelHole
deriving DecidableEq, Repr

/-- `describeCounts`: the data rendered by the description string (entries
with `parseInt`-ed keys, sorted ascending).  The text formatting itself is
display-only and not modelled. -/
def describeCounts (counts : List (ℚ × ℕ)) : List (ℚ × ℕ) :=
  jsSort (fun p q => decide (p.1 ≤ q.1))
    ((jsEntries counts).map (fun p => (jsParseInt p.1, p.2)))

/-- A 2-D layout option: one axis solution per axis, averaged coverage,
product panel count, and the data of the description string. -/
structure LayoutOption where
  w : AxisSolution
  h : AxisSolution
  totalCoverage : ℚ
  totalPanels : ℕ
  desc : List (ℚ × ℕ) × List (ℚ × ℕ)
deriving DecidableEq, Repr

inductive SpacingMode where
  | spacing
  | count
deriving DecidableEq, Repr

inductive GridPattern where
  | rect
  | hex
deriving DecidableEq, Repr

/-- The slice of `PanelState` that the algorithmic core reads.  The grayscale
field is a total function `ℤ → ℚ` standing for the `Float32Array` indexed by
`y0 * imgWidth + x0` (out-of-range reads, which would yield `undefined` in
JavaScript, never occur for an image with both dimensions positive, since the
sampler clamps its coordinates).  Display-only fields (colors, backlight,
`lockRatio`, `sourceImage`, `holeShape`, …) are omitted; `processImage`
(DOM/canvas bound) is outside the embedding, its output being the
`grayPixels` field consumed here. -/
structure PanelState where
  grayPixels : Option (ℤ → ℚ)
  imgWidth : ℕ
  imgHeight : ℕ
  wallW : ℚ
  wallH : ℚ
  panelGap : ℚ
  enabledWidths : List ℚ
  enabledHeights : List ℚ
  margin : ℚ
  spacingMode : SpacingMode
  spacingX : ℚ
  spacingY : ℚ
  minSpacing : ℚ
  gridCols : ℚ
  gridRows : ℚ
  gridPattern : GridPattern
  enabledHoleSizes : List ℚ
  threshold : ℚ
  gamma : ℚ
  selectedLayoutIdx : ℤ
  colWidths : List ℚ
  rowHeights : List ℚ
  panels : List Panel

/-! ## `sampleImage` (panelEngine.ts lines 28–41) -/

/-- Bilinear sampling of the grayscale field at normalized coordinates,
clamped to `[0,1]`; returns `1` when no field is present. -/
def sampleImage (st : PanelState) (u v : ℚ) : ℚ :=
  match st.grayPixels with
  | none => 1
  | some g =>
    let w := st.imgWidth
    let h := st.imgHeight
    let fx := max 0 (min 1 u) * ((w : ℚ) - 1)
    let fy := max 0 (min 1 v) * ((h : ℚ) - 1)
    let x0 := jsFloor fx
    let y0 := jsFloor fy
    let x1 := min (x0 + 1) ((w : ℤ) - 1)
    let y1 := min (y0 + 1) ((h : ℤ) - 1)
    let dx := fx - (x0 : ℚ)
    let dy := fy - (y0 : ℚ)
    g (y0 * w + x0) * (1 - dx) * (1 - dy) +
      g (y0 * w + x1) * dx * (1 - dy) +
      g (y1 * w + x0) * (1 - dx) * dy +
      g (y1 * w + x1) * dx * dy

/-! ## Layout composition and materialization
(`solveAndBuildPanels`, panelEngine.ts lines 117–195) -/

/-- The comparator of the combo ranking as `cmp a b ≤ 0`: descending
averaged coverage with `0.003` tolerance, then ascending total panels. -/
def comboCmpLe (a b : LayoutOption) : Bool :=
  let cd := b.totalCoverage - a.totalCoverage
  if 3/1000 < |cd| then decide (cd ≤ 0)
  else decide (a.totalPanels ≤ b.totalPanels)

/-- The inner column loop of the materialization: one row of panels, walking
left to right, accumulating the x position by panel width plus gap. -/
def buildRowPanels (gap yPos ph : ℚ) (r : ℕ) : List ℚ → ℚ → ℕ → List Panel
  | [], _, _ => []
  | pw :: rest, xPos, c =>
    { x := xPos, y := yPos, w := pw, h := ph, col := c, row := r,
      label := (65 + r, c + 1), sizeLabel := (pw, ph), holes := [] } ::
      buildRowPanels gap yPos ph r rest (xPos + pw + gap) (c + 1)

/-- The outer row loop of the materialization: walk rows top to bottom,
accumulating the y position by row height plus gap. -/
def buildGridRows (colWidths : List ℚ) (gap offsetX : ℚ) : List ℚ → ℚ → ℕ → List Panel
  | [], _, _ => []
  | ph :: rest, yPos, r =>
    buildRowPanels gap yPos ph r colWidths offsetX 0 ++
      buildGridRows colWidths gap offsetX rest (yPos + ph + gap) (r + 1)

/-- The result record of `solveAndBuildPanels`. -/
structure BuildResult where
  layoutOptions : List LayoutOption
  panels : List Panel
  colWidths : List ℚ
  rowHeights : List ℚ
deriving Repr

/-- Fallback `LayoutOption` for the (unreachable) out-of-range index read. -/
def defaultOption : LayoutOption :=
  ⟨⟨[], 0, 0, 0⟩, ⟨[], 0, 0, 0⟩, 0, 0, ([], [])⟩

/-- `solveAndBuildPanels`: solve both axes, cross the first 6 solutions per
axis into ranked layout options (at most 15), pick the selected option,
arrange both axes, and materialize the centered panel grid. -/
def solveAndBuildPanels (st : PanelState) : BuildResult :=
  let wSolutions := solveAxis st.wallW st.panelGap st.enabledWidths
  let hSolutions := solveAxis st.wallH st.panelGap st.enabledHeights
  if wSolutions = [] ∨ hSolutions = [] then ⟨[], [], [], []⟩
  else
    let combos := (wSolutions.take 6).flatMap (fun w =>
      (hSolutions.take 6).map (fun h =>
        { w := w, h := h,
          totalCoverage := (w.coverage + h.coverage) / 2,
          totalPanels := w.numPanels * h.numPanels,
          desc := (describeCounts w.counts, describeCounts h.counts) }))
    let layoutOptions := (jsSort comboCmpLe combos).take 15
    if layoutOptions = [] then ⟨[], [], [], []⟩
    else
      let idx : ℤ := min st.selectedLayoutIdx ((layoutOptions.length : ℤ) - 1)
      let opt := layoutOptions.getD (max 0 idx).toNat defaultOption
      let colWidths := arrangeAxis opt.w.counts
      let rowHeights := arrangeAxis opt.h.counts
      let gap := st.panelGap
      let totalW := colWidths.sum + ((colWidths.length : ℚ) - 1) * gap
      let totalH := rowHeights.sum + ((rowHeights.length : ℚ) - 1) * gap
      let offsetX := (st.wallW - totalW) / 2
      let offsetY := (st.wallH - totalH) / 2
      let panels := buildGridRows colWidths gap offsetX rowHeights offsetY 0
      ⟨layoutOptions, panels, colWidths, rowHeights⟩

/-! ## Hole computation (`computeAllHoles`, panelEngine.ts lines 198–274) -/

/-- `Math.max(...l) || dflt`: `none` models the empty spread
(`Math.max()` is `-Infinity`, which is truthy and survives the `||`); a
maximum of `0` is falsy and is replaced by the default. -/
def jsRefDim (l : List ℚ) (dflt : ℚ) : Option ℚ :=
  match l with
  | [] => none
  | x :: xs => some (if xs.foldl max x = 0 then dflt else xs.foldl max x)

/-- The lattice dimensions `(cols, rows)` chosen for one panel interior.
In count mode a `-Infinity` reference dimension (empty `colWidths` /
`rowHeights`) makes the scaled ratio `-0`, hence `max(1, round(·)) = 1`,
which the `none` branches reproduce.  Rational division by zero is `0`
here, whereas JavaScript would produce `±Infinity` (degenerate
configurations: `max(minSpacing, spacing) = 0` in spacing mode, or a
reference interior or `minSpacing` of exactly `0` in count mode, where the
JavaScript would loop without bound or drop the cap; no such configuration
is considered by the theorems below, which hold for every `(cols, rows)`). -/
def gridDims (st : PanelState) (areaW areaH : ℚ) : ℤ × ℤ :=
  if st.spacingMode = SpacingMode.spacing then
    let sx := max st.minSpacing st.spacingX
    let sy := max st.minSpacing st.spacingY
    (max 1 (jsFloor (areaW / sx) + 1), max 1 (jsFloor (areaH / sy) + 1))
  else
    let cols : ℤ :=
      match jsRefDim st.colWidths 48 with
      | none => 1
      | some refW => max 1 (jsRound (st.gridCols * (areaW / (refW - 2 * st.margin))))
    let rows : ℤ :=
      match jsRefDim st.rowHeights 120 with
      | none => 1
      | some refH => max 1 (jsRound (st.gridRows * (areaH / (refH - 2 * st.margin))))
    let maxCols := jsFloor (areaW / st.minSpacing) + 1
    let maxRows := jsFloor (areaH / st.minSpacing) + 1
    (min cols maxCols, min rows maxRows)

/-- Number of lattice columns in row `r`:
`(state.gridPattern === 'hex' && isOdd) ? cols - 1 : cols`. -/
def cCols (pattern : GridPattern) (cols : ℤ) (r : ℕ) : ℤ :=
  if pattern = GridPattern.hex ∧ r % 2 = 1 then cols - 1 else cols

/-- The x coordinate of candidate lattice point `(r, c)` within the panel:
`m + (cols > 1 ? c * (areaW / (cols - 1)) : areaW / 2) + xOff`, where
`xOff` is half the column pitch on odd rows of the staggered pattern. -/
def latticeX (pattern : GridPattern) (m areaW : ℚ) (cols : ℤ) (r c : ℕ) : ℚ :=
  let sx := if 1 < cols then areaW / ((cols : ℚ) - 1) else 0
  let xOff := if pattern = GridPattern.hex ∧ r % 2 = 1 then sx * (1/2) else 0
  m + (if 1 < cols then (c : ℚ) * (areaW / ((cols : ℚ) - 1)) else areaW / 2) + xOff

/-- The y coordinate of candidate lattice row `r`:
`m + (rows > 1 ? r * (areaH / (rows - 1)) : areaH / 2)`. -/
def latticeY (m areaH : ℚ) (rows : ℤ) (r : ℕ) : ℚ :=
  m + (if 1 < rows then (r : ℚ) * (areaH / ((rows : ℚ) - 1)) else areaH / 2)

/-- The candidate lattice of row `r` (before the bounds check and the
brightness gate): the x coordinates of its `cCols` points. -/
def candidateRow (pattern : GridPattern) (m areaW : ℚ) (cols : ℤ) (r : ℕ) : List ℚ :=
  (List.range (cCols pattern cols r).toNat).map (fun c => latticeX pattern m areaW cols r c)

/-- Snap a raw diameter to the catalog value at minimal absolute distance,
scanning the ascending catalog; `dist < bestDist` is a JS float comparison
(`false` whenever the raw diameter is `NaN`, so the first entry wins). -/
def snapSize (sizes : List ℚ) (raw : JNum) : ℚ :=
  match sizes with
  | [] => 0
  | s0 :: rest =>
    (rest.foldl
      (fun best s =>
        if jlt (jabs (jsub raw (.num s))) best.2 then (s, jabs (jsub raw (.num s))) else best)
      (s0, jabs (jsub raw (.num s0)))).1

/-- One candidate point of one panel: discard it if it falls outside the
panel's physical bounds or samples brighter than the threshold gate;
otherwise map darkness through the gamma curve to a diameter and snap it to
the catalog.  `thresh` is `state.threshold / 255`. -/
def holeAt (powFn : ℚ → ℚ → JNum) (st : PanelState) (p : Panel)
    (thresh minD maxD : ℚ) (sizes : List ℚ) (lx ly : ℚ) : Option PanelHole :=
  if lx < 0 ∨ p.w < lx ∨ ly < 0 ∨ p.h < ly then none
  else
    let brightness := sampleImage st ((p.x + lx) / st.wallW) ((p.y + ly) / st.wallH)
    if thresh < brightness then none
    else
      let t := jpow powFn
        (jmax (.num 0) (jmin (.num 1) (jsub (.num 1) (jdivQ brightness thresh)))) st.gamma
      let rawDiam := jadd (.num minD) (jmul t (.num (maxD - minD)))
      some ⟨lx, ly, snapSize sizes rawDiam⟩

/-- All holes of one panel: rows `0 ≤ r < rows`, candidate points per row,
filtered by `holeAt`. -/
def panelHolesFor (powFn : ℚ → ℚ → JNum) (st : PanelState) (p : Panel)
    (thresh minD maxD : ℚ) (sizes : List ℚ) (areaW areaH : ℚ) (cols rows : ℤ) :
    List PanelHole :=
  (List.range rows.toNat).flatMap (fun r =>
    (candidateRow st.gridPattern st.margin areaW cols r).filterMap (fun lx =>
      holeAt powFn st p thresh minD maxD sizes lx (latticeY st.margin areaH rows r)))

/-- The per-panel loop of `computeAllHoles`, threading `lastGridInfo`:
panels with a degenerate interior get an empty hole list and do not update
the grid info. -/
def holesLoop (powFn : ℚ → ℚ → JNum) (st : PanelState)
    (thresh minD maxD : ℚ) (sizes : List ℚ) :
    List Panel → ℤ × ℤ → List Panel × (ℤ × ℤ)
  | [], lastGI => ([], lastGI)
  | p :: rest, lastGI =>
    let areaW := p.w - 2 * st.margin
    let areaH := p.h - 2 * st.margin
    if areaW ≤ 0 ∨ areaH ≤ 0 then
      let r := holesLoop powFn st thresh minD maxD sizes rest lastGI
      ({ p with holes := [] } :: r.1, r.2)
    else
      let d := gridDims st areaW areaH
      let holes := panelHolesFor powFn st p thresh minD maxD sizes areaW areaH d.1 d.2
      let r := holesLoop powFn st thresh minD maxD sizes rest d
      ({ p with holes := holes } :: r.1, r.2)

/-- `computeAllHoles(state)`: early exits when there is no grayscale field
or no enabled hole size (every panel gets an empty aperture list), else run
the per-panel loop.  Returns the new panels and the last grid dimensions. -/
def computeAllHoles (powFn : ℚ → ℚ → JNum) (st : PanelState) :
    List Panel × (ℤ × ℤ) :=
  match st.grayPixels with
  | none => (st.panels.map (fun p => { p with holes := [] }), (0, 0))
  | some _ =>
    let thresh := st.threshold / 255
    let sizes := jsSort (fun a b => decide (a ≤ b)) st.enabledHoleSizes
    if sizes = [] then (st.panels.map (fun p => { p with holes := [] }), (0, 0))
    else
      let minD := sizes.headD 0
      let maxD := sizes.getLastD 0
      holesLoop powFn st thresh minD maxD sizes st.panels (0, 0)

/-! ## Sorting infrastructure lemmas -/

theorem insertS_perm (le : α → α → Bool) (x : α) (l : List α) :
    (insertS le x l).Perm (x :: l) := by
  induction l with
  | nil => rfl
  | cons y ys ih =>
    simp only [insertS]
    split
    · exact (ih.cons y).trans (List.Perm.swap x y ys)
    · rfl

theorem mem_insertS {le : α → α → Bool} {x a : α} {l : List α} :
    a ∈ insertS le x l ↔ a = x ∨ a ∈ l := by
  rw [(insertS_perm le x l).mem_iff, List.mem_cons]

theorem foldl_insertS_perm (le : α → α → Bool) (l acc : List α) :
    (l.foldl (fun acc x => insertS le x acc) acc).Perm (acc ++ l) := by
  induction l generalizing acc with
  | nil => simp
  | cons x xs ih =>
    have h1 : ((x :: xs).foldl (fun acc x => insertS le x acc) acc)
        = xs.foldl (fun acc x => insertS le x acc) (insertS le x acc) := rfl
    rw [h1]
    exact ((ih _).trans ((insertS_perm le x acc).append_right xs)).trans
      List.perm_middle.symm

theorem jsSort_perm (le : α → α → Bool) (l : List α) : (jsSort le l).Perm l := by
  simpa [jsSort] using foldl_insertS_perm le l []

theorem mem_jsSort {le : α → α → Bool} {l : List α} {a : α} :
    a ∈ jsSort le l ↔ a ∈ l := (jsSort_perm le l).mem_iff

theorem insertS_pairwise {le : α → α → Bool} {L : List α} {x : α} {l : List α}
    (trans : ∀ a ∈ L, ∀ b ∈ L, ∀ c ∈ L, le a b = true → le b c = true → le a c = true)
    (total : ∀ a ∈ L, ∀ b ∈ L, le a b = true ∨ le b a = true)
    (hsub : ∀ a ∈ x :: l, a ∈ L)
    (h : l.Pairwise (fun a b => le a b = true)) :
    (insertS le x l).Pairwise (fun a b => le a b = true) := by
  induction l with
  | nil => simp [insertS]
  | cons y ys ih =>
    rcases List.pairwise_cons.1 h with ⟨hy, hys⟩
    simp only [insertS]
    by_cases hyx : le y x = true
    · rw [if_pos hyx]
      refine List.pairwise_cons.2 ⟨?_, ?_⟩
      · intro z hz
        rcases mem_insertS.1 hz with rfl | hz'
        · exact hyx
        · exact hy z hz'
      · refine ih ?_ hys
        intro a ha
        rcases List.mem_cons.1 ha with rfl | ha'
        · exact hsub a (List.mem_cons_self a _)
        · exact hsub a (List.mem_cons_of_mem x (List.mem_cons_of_mem y ha'))
    · rw [if_neg hyx]
      have hxL : x ∈ L := hsub x (List.mem_cons_self x _)
      have hyL : y ∈ L := hsub y (List.mem_cons_of_mem x (List.mem_cons_self y _))
      have hxy : le x y = true := (total x hxL y hyL).resolve_right hyx
      refine List.pairwise_cons.2 ⟨?_, h⟩
      intro z hz
      rcases List.mem_cons.1 hz with rfl | hz'
      · exact hxy
      · exact trans x hxL y hyL z
          (hsub z (List.mem_cons_of_mem x (List.mem_cons_of_mem y hz'))) hxy (hy z hz')

theorem foldl_insertS_pairwise {le : α → α → Bool} {L : List α}
    (trans : ∀ a ∈ L, ∀ b ∈ L, ∀ c ∈ L, le a b = true → le b c = true → le a c = true)
    (total : ∀ a ∈ L, ∀ b ∈ L, le a b = true ∨ le b a = true) :
    ∀ (l acc : List α), (∀ a ∈ l, a ∈ L) → (∀ a ∈ acc, a ∈ L) →
      acc.Pairwise (fun a b => le a b = true) →
      (l.foldl (fun acc x => insertS le x acc) acc).Pairwise (fun a b => le a b = true) := by
  intro l
  induction l with
  | nil => intro acc _ _ hacc; exact hacc
  | cons x xs ih =>
    intro acc hl hacc hpw
    refine ih (insertS le x acc) (fun a ha => hl a (List.mem_cons_of_mem x ha)) ?_ ?_
    · intro a ha
      rcases mem_insertS.1 ha with rfl | ha'
      · exact hl a (List.mem_cons_self a _)
      · exact hacc a ha'
    · exact insertS_pairwise trans total
        (fun a ha => by
          rcases List.mem_cons.1 ha with rfl | ha'
          · exact hl a (List.mem_cons_self a _)
          · exact hacc a ha') hpw

theorem jsSort_pairwise {le : α → α → Bool} {l : List α}
    (trans : ∀ a ∈ l, ∀ b ∈ l, ∀ c ∈ l, le a b = true → le b c = true → le a c = true)
    (total : ∀ a ∈ l, ∀ b ∈ l, le a b = true ∨ le b a = true) :
    (jsSort le l).Pairwise (fun a b => le a b = true) :=
  foldl_insertS_pairwise trans total l [] (fun _ h => h) (fun _ h => (List.not_mem_nil _ h).elim)
    List.Pairwise.nil

/-! ## Dedup lemmas -/

theorem dedupGo_sublist (seen : List (List (ℚ × ℕ))) (l : List AxisSolution) :
    (dedupGo seen l).Sublist l := by
  induction l generalizing seen with
  | nil => simp [dedupGo]
  | cons r rest ih =>
    simp only [dedupGo]
    split
    · exact (ih seen).cons r
    · exact (ih _).cons₂ r

theorem dedupGo_pairwise (seen : List (List (ℚ × ℕ))) (l : List AxisSolution) :
    (dedupGo seen l).Pairwise (fun a b => sigEntries a.counts ≠ sigEntries b.counts) ∧
      ∀ a ∈ dedupGo seen l, sigEntries a.counts ∉ seen := by
  induction l generalizing seen with
  | nil => exact ⟨List.Pairwise.nil, by simp [dedupGo]⟩
  | cons r rest ih =>
    simp only [dedupGo]
    split
    · exact ih seen
    · rcases ih (sigEntries r.counts :: seen) with ⟨hpw, hmem⟩
      refine ⟨List.pairwise_cons.2 ⟨?_, hpw⟩, ?_⟩
      · intro b hb heq
        exact hmem b hb (heq ▸ List.mem_cons_self _ _)
      · intro a ha
        rcases List.mem_cons.1 ha with rfl | ha'
        · assumption
        · exact fun hmem' => hmem a ha' (List.mem_cons_of_mem _ hmem')

/-! ## The solver invariant (claim C1) -/

theorem recAx_total_le (w gap : ℚ) :
    ∀ (rest : List ℚ) (totalDim : ℚ) (numPanels : ℕ) (counts : List (ℚ × ℕ)),
      ∀ r ∈ recAx w gap rest totalDim numPanels counts, r.total ≤ w + gap + 1/100 := by
  intro rest
  induction rest with
  | nil =>
    intro totalDim numPanels counts r hr
    simp only [recAx] at hr
    split at hr
    · exact absurd hr (List.not_mem_nil r)
    · split at hr
      · rcases List.mem_singleton.1 hr with rfl
        simpa using le_of_not_lt (by assumption)
      · exact absurd hr (List.not_mem_nil r)
  | cons size rest ih =>
    intro totalDim numPanels counts r hr
    simp only [recAx] at hr
    split at hr
    · exact absurd hr (List.not_mem_nil r)
    · rcases List.mem_append.1 hr with hr1 | hr2
      · split at hr1
        · rcases List.mem_singleton.1 hr1 with rfl
          simpa using le_of_not_lt (by assumption)
        · exact absurd hr1 (List.not_mem_nil r)
      · rcases List.mem_flatMap.1 hr2 with ⟨n, _, hrec⟩
        exact ih _ _ _ r hrec

/-- C1: Every axis solution returned by `solveAxis` satisfies
`total ≤ wallExtent + gap + 0.01` — for every wall extent `w > 0`, gap
`≥ 0`, and size catalog (in fact for arbitrary `w` and `gap`: the bound is
enforced by the pruning guard before every solution is recorded). -/
theorem solveAxis_total_le (w gap : ℚ) (sizes : List ℚ) (hw : 0 < w) (hg : 0 ≤ gap) :
    ∀ r ∈ solveAxis w gap sizes, r.total ≤ w + gap + 1/100 := by
  intro r hr
  unfold solveAxis at hr
  split at hr
  · exact absurd hr (List.not_mem_nil r)
  · have h1 : r ∈ dedupGo [] (jsSort axisCmpLe (solveAxisResults w gap sizes)) :=
      (List.take_sublist 12 _).subset hr
    have h2 : r ∈ jsSort axisCmpLe (solveAxisResults w gap sizes) :=
      (dedupGo_sublist [] _).subset h1
    exact recAx_total_le w gap _ 0 0 [] r (mem_jsSort.1 h2)

/-- Witness for C1 at wall 10, gap 0, catalog `[4]`, solution `{4: 2}`. -/
theorem solveAxis_total_le_witness :
    (AxisSolution.mk [(4, 2)] 8 (4/5) 2).total ≤ 10 + 0 + 1/100 :=
  solveAxis_total_le 10 0 [4] (by norm_num) (le_refl 0)
    (AxisSolution.mk [(4, 2)] 8 (4/5) 2) (by decide)

/-! ## Ranking of solver output (claim C3) -/

theorem axisCmpLe_total (a b : AxisSolution) :
    axisCmpLe a b = true ∨ axisCmpLe b a = true := by
  simp only [axisCmpLe]
  rw [abs_sub_comm a.coverage b.coverage]
  by_cases hcd : 3/1000 < |b.coverage - a.coverage|
  · rw [if_pos hcd, if_pos hcd]
    rcases le_total (b.coverage - a.coverage) 0 with h | h
    · exact Or.inl (by simpa using h)
    · exact Or.inr (by simp; linarith)
  · rw [if_neg hcd, if_neg hcd]
    by_cases hlen : a.counts.length = b.counts.length
    · rw [if_neg (by omega), if_neg (by omega)]
      rcases Nat.le_total a.numPanels b.numPanels with h | h
      · exact Or.inl (by simpa using h)
      · exact Or.inr (by simpa using h)
    · rw [if_pos (by omega), if_pos (by omega)]
      rcases Nat.le_total a.counts.length b.counts.length with h | h
      · exact Or.inl (by simpa using h)
      · exact Or.inr (by simpa using h)

theorem axisCmpLe_tie {a b : AxisSolution} (h : axisCmpLe a b = true)
    (htie : |b.coverage - a.coverage| < 3/1000) :
    a.counts.length < b.counts.length ∨
      (a.counts.length = b.counts.length ∧ a.numPanels ≤ b.numPanels) := by
  simp only [axisCmpLe] at h
  rw [if_neg (by linarith)] at h
  by_cases hlen : a.counts.length = b.counts.length
  · rw [if_neg (by omega)] at h
    exact Or.inr ⟨hlen, by simpa using h⟩
  · rw [if_pos (by omega)] at h
    exact Or.inl (lt_of_le_of_ne (by simpa using h) hlen)

/-- The number of distinct sizes actually used by a solution (entries of the
count record with a nonzero count).  This is what the specification calls
"count of distinct sizes used"; the code instead ranks by
`Object.keys(counts).length`, which also counts zero-count keys left behind
by the enumeration. -/
def usedCount (r : AxisSolution) : ℕ := (r.counts.filter (fun p => p.2 ≠ 0)).length

/-- C3 (amended): the returned list has at most 12 entries, no two entries
share the record signature (entries sorted by key, zero-count keys
included), and — provided the comparator is transitive on the candidate
set, which the 0.003 coverage tolerance does not guarantee in general —
any two returned solutions whose coverages differ by less than 0.003 are
ordered by ascending record key count (zero-count keys included), then
ascending panel count. -/
theorem solveAxis_ranking (w gap : ℚ) (sizes : List ℚ)
    (htrans : ∀ a ∈ solveAxisResults w gap sizes, ∀ b ∈ solveAxisResults w gap sizes,
      ∀ c ∈ solveAxisResults w gap sizes,
        axisCmpLe a b = true → axisCmpLe b c = true → axisCmpLe a c = true) :
    (solveAxis w gap sizes).length ≤ 12 ∧
    (solveAxis w gap sizes).Pairwise
      (fun a b => sigEntries a.counts ≠ sigEntries b.counts) ∧
    (solveAxis w gap sizes).Pairwise (fun a b =>
      |b.coverage - a.coverage| < 3/1000 →
        a.counts.length < b.counts.length ∨
          (a.counts.length = b.counts.length ∧ a.numPanels ≤ b.numPanels)) := by
  unfold solveAxis
  split
  · exact ⟨by simp, List.Pairwise.nil, List.Pairwise.nil⟩
  · refine ⟨List.length_take_le 12 _, ?_, ?_⟩
    · exact ((dedupGo_pairwise [] _).1).sublist (List.take_sublist 12 _)
    · have hsorted : (jsSort axisCmpLe (solveAxisResults w gap sizes)).Pairwise
          (fun a b => axisCmpLe a b = true) :=
        jsSort_pairwise htrans (fun a _ b _ => axisCmpLe_total a b)
      have hdedup := hsorted.sublist (dedupGo_sublist [] _)
      have htake := hdedup.sublist (List.take_sublist 12 _)
      exact htake.imp (fun h htie => axisCmpLe_tie h htie)

/-- Witness for C3 at wall 10, gap 0, catalog `[4]` (comparator transitivity
over the two candidate solutions is checked by computation). -/
theorem solveAxis_ranking_witness :
    (solveAxis 10 0 [4]).length ≤ 12 ∧
    (solveAxis 10 0 [4]).Pairwise
      (fun a b => sigEntries a.counts ≠ sigEntries b.counts) ∧
    (solveAxis 10 0 [4]).Pairwise (fun a b =>
      |b.coverage - a.coverage| < 3/1000 →
        a.counts.length < b.counts.length ∨
          (a.counts.length = b.counts.length ∧ a.numPanels ≤ b.numPanels)) :=
  solveAxis_ranking 10 0 [4] (by decide)

/-- C3 (counterexample to the claim as stated): at wall 84, gap 0, catalog
`[48, 36, 27.95]`, the returned list starts with the solution
`{48:1, 36:1}` (two distinct sizes used), followed at index 1 by
`{48:1, 36:1, 27.95:0}` — the *same* multiset of panels, surviving
deduplication because the zero-count key changes the signature — and at
index 2 by `{48:0, 36:0, 27.95:3}` (one distinct size used) whose coverage
differs from the leader by 1/560 < 0.003: two near-tied solutions ordered
by *descending* count of distinct sizes used. -/
theorem solveAxis_ranking_counterexample :
    2 < (solveAxis 84 0 [48, 36, 559/20]).length ∧
    |((solveAxis 84 0 [48, 36, 559/20]).getD 2 ⟨[], 0, 0, 0⟩).coverage -
        ((solveAxis 84 0 [48, 36, 559/20]).getD 0 ⟨[], 0, 0, 0⟩).coverage| < 3/1000 ∧
    usedCount ((solveAxis 84 0 [48, 36, 559/20]).getD 0 ⟨[], 0, 0, 0⟩) = 2 ∧
    usedCount ((solveAxis 84 0 [48, 36, 559/20]).getD 2 ⟨[], 0, 0, 0⟩) = 1 ∧
    (((solveAxis 84 0 [48, 36, 559/20]).getD 0 ⟨[], 0, 0, 0⟩).counts.filter
        (fun p => p.2 ≠ 0)) =
      (((solveAxis 84 0 [48, 36, 559/20]).getD 1 ⟨[], 0, 0, 0⟩).counts.filter
        (fun p => p.2 ≠ 0)) := by
  decide

/-! ## `arrangeAxis` structure (claim C2) -/

theorem le_foldl_max (xs : List ℚ) (a : ℚ) : a ≤ xs.foldl max a := by
  induction xs generalizing a with
  | nil => exact le_refl a
  | cons y ys ih => exact le_trans (le_max_left a y) (ih (max a y))

theorem mem_le_foldl_max {x : ℚ} {xs : List ℚ} (h : x ∈ xs) (a : ℚ) :
    x ≤ xs.foldl max a := by
  induction xs generalizing a with
  | nil => exact absurd h (List.not_mem_nil x)
  | cons y ys ih =>
    rcases List.mem_cons.1 h with rfl | h'
    · exact le_trans (le_max_right a x) (le_foldl_max ys (max a x))
    · exact ih h' (max a y)

theorem mem_le_jsMaxList {x : ℚ} {l : List ℚ} (h : x ∈ l) : x ≤ jsMaxList l := by
  rcases l with _ | ⟨a, xs⟩
  · exact absurd h (List.not_mem_nil x)
  · rcases List.mem_cons.1 h with rfl | h'
    · exact le_foldl_max xs x
    · exact mem_le_foldl_max h' a

/-- The elements of the expansion are first components of entries. -/
theorem mem_flatMap_replicate {y : ℚ} {entries : List (ℚ × ℕ)}
    (h : y ∈ entries.flatMap (fun p => List.replicate p.2 p.1)) :
    ∃ q ∈ entries, y = q.1 := by
  rcases List.mem_flatMap.1 h with ⟨q, hq, hy⟩
  exact ⟨q, hq, List.eq_of_mem_replicate hy⟩

theorem pairwise_flatMap_replicate {entries : List (ℚ × ℕ)}
    (h : entries.Pairwise (fun p q => p.1 ≤ q.1)) :
    (entries.flatMap (fun p => List.replicate p.2 p.1)).Pairwise (· ≤ ·) := by
  induction entries with
  | nil => exact List.Pairwise.nil
  | cons p rest ih =>
    rcases List.pairwise_cons.1 h with ⟨hp, hrest⟩
    rw [List.flatMap_cons]
    refine List.pairwise_append.2 ⟨?_, ih hrest, ?_⟩
    · exact List.pairwise_replicate.2 (Or.inr (le_refl p.1))
    · intro x hx y hy
      rcases mem_flatMap_replicate hy with ⟨q, hq, rfl⟩
      rw [List.eq_of_mem_replicate hx]
      exact hp q hq

/-- The expansion `arrangeAll` is sorted ascending. -/
theorem arrangeAll_sorted (counts : List (ℚ × ℕ)) :
    (arrangeAll counts).Pairwise (· ≤ ·) := by
  refine pairwise_flatMap_replicate ?_
  have h := @jsSort_pairwise (ℚ × ℕ)
    (fun p q => decide (p.1 ≤ q.1))
    ((jsEntries counts).map (fun p => (jsParseInt p.1, p.2)))
    (fun a _ b _ c _ hab hbc => by
      simp only [decide_eq_true_eq] at *
      exact le_trans hab hbc)
    (fun a _ b _ => by
      simp only [decide_eq_true_eq]
      exact le_total a.1 b.1)
  exact h.imp (fun hab => by simpa using hab)

theorem perm_take_mid_drop (E M : List ℚ) (k : ℕ) :
    (E.take k ++ M ++ E.drop k).Perm (E ++ M) := by
  have h1 : (E.take k ++ M ++ E.drop k).Perm (E.take k ++ E.drop k ++ M) := by
    rw [List.append_assoc, List.append_assoc]
    exact List.Perm.append_left _ List.perm_append_comm
  rwa [List.take_append_drop] at h1

theorem arrangeCore_perm {all : List ℚ} : (arrangeCore all).Perm all := by
  simp only [arrangeCore]
  have hsplit : all.filter (fun p => decide (p = jsMaxList all)) =
      all.filter (fun p => !(decide (p < jsMaxList all))) := by
    refine List.filter_congr ?_
    intro x hx
    have hle : x ≤ jsMaxList all := mem_le_jsMaxList hx
    rcases eq_or_lt_of_le hle with rfl | hlt
    · simp
    · simp [hlt, ne_of_lt hlt]
  rw [hsplit]
  exact (perm_take_mid_drop _ _ _).trans
    (List.filter_append_perm (fun p => decide (p < jsMaxList all)) all)

theorem arrangeCore_eq_small {all : List ℚ} (hs : all.Pairwise (· ≤ ·))
    (hlen : all.length ≤ 2) : arrangeCore all = all := by
  match all, hs, hlen with
  | [], _, _ => rfl
  | [a], _, _ =>
    have h1 : decide (a < jsMaxList [a]) = false := by
      simp [jsMaxList]
    have h2 : decide (a = jsMaxList [a]) = true := by
      simp [jsMaxList]
    simp [arrangeCore, h1, h2]
  | [a, b], hs, _ =>
    have hab : a ≤ b := by
      rcases List.pairwise_cons.1 hs with ⟨h, _⟩
      exact h b (List.mem_singleton.2 rfl)
    have hmax : jsMaxList [a, b] = b := by
      simp [jsMaxList, max_eq_right hab]
    rcases eq_or_lt_of_le hab with rfl | hlt
    · have h1 : decide (a < jsMaxList [a, a]) = false := by simp [hmax]
      have h2 : decide (a = jsMaxList [a, a]) = true := by simp [hmax]
      simp [arrangeCore, h1, h2]
    · have h1 : decide (a < jsMaxList [a, b]) = true := by simp [hmax, hlt]
      have h2 : decide (b < jsMaxList [a, b]) = false := by simp [hmax]
      have h3 : decide (a = jsMaxList [a, b]) = false := by simp [hmax, ne_of_lt hlt]
      have h4 : decide (b = jsMaxList [a, b]) = true := by simp [hmax]
      simp [arrangeCore, h1, h2, h3, h4]
  | _ :: _ :: _ :: _, _, hlen => simp at hlen

/-- The specification's arrangement rule (as amended): the *largest* length
forms one contiguous central run, the strictly smaller lengths (in their
expanded, ascending order) are split with the first `ceil(edgeCount/2)` on
the left — applied uniformly, with no special case for short sequences. -/
def arrangeAxisSpec (counts : List (ℚ × ℕ)) : List ℚ :=
  arrangeCore (arrangeAll counts)

/-- C2 (amended): `arrangeAxis` returns exactly the specification
arrangement (largest length centered, smaller lengths split ceil-half
left), and it is a permutation of the expanded multiset of the count
record after its keys pass through `parseInt` (`arrangeAll`; exact for
integer sizes). -/
theorem arrangeAxis_corrected (counts : List (ℚ × ℕ)) :
    arrangeAxis counts = arrangeAxisSpec counts ∧
    (arrangeAxis counts).Perm (arrangeAll counts) := by
  have heq : arrangeAxis counts = arrangeAxisSpec counts := by
    unfold arrangeAxis arrangeAxisSpec
    by_cases hlen : (arrangeAll counts).length ≤ 2
    · rw [if_pos hlen, arrangeCore_eq_small (arrangeAll_sorted counts) hlen]
    · rw [if_neg hlen]
  exact ⟨heq, heq ▸ arrangeCore_perm⟩

/-- C2 (counterexample to the claim as stated): for the count map
`{24: 5, 48: 1}` the single most frequent length is 24, yet the output is
`[24, 24, 24, 48, 24, 24]` — the code centers the *largest* length, so the
most frequent length does not form one contiguous run.  And for the
non-integer count map `{27.95: 3}` the output is `[27, 27, 27]` (keys pass
through `parseInt`), which is not a permutation of the input multiset. -/
theorem arrangeAxis_claim_counterexample :
    arrangeAxis [(24, 5), (48, 1)] = [24, 24, 24, 48, 24, 24] ∧
    (¬ ∃ pre post : List ℚ,
      arrangeAxis [(24, 5), (48, 1)] = pre ++ List.replicate 5 24 ++ post) ∧
    arrangeAxis [(559/20, 3)] = [27, 27, 27] ∧
    ¬ (arrangeAxis [(559/20, 3)]).Perm (List.replicate 3 (559/20 : ℚ)) := by
  refine ⟨by decide, ?_, by decide, ?_⟩
  · rintro ⟨pre, post, h⟩
    rw [show arrangeAxis [(24, 5), (48, 1)] = [24, 24, 24, 48, 24, 24] from by decide,
      show List.replicate 5 (24 : ℚ) = [24, 24, 24, 24, 24] from rfl] at h
    match pre, h with
    | [], h =>
      simp only [List.nil_append, List.cons_append, List.cons.injEq] at h
      exact absurd h.2.2.2.1 (by norm_num)
    | [x], h =>
      simp only [List.cons_append, List.nil_append, List.cons.injEq] at h
      exact absurd h.2.2.2.1 (by norm_num)
    | x :: y :: pre2, h =>
      have hlen := congrArg List.length h
      simp only [List.length_append, List.length_cons] at hlen
      omega
  · intro h
    rw [show arrangeAxis [(559/20, 3)] = [27, 27, 27] from by decide] at h
    have h27 : (27 : ℚ) ∈ List.replicate 3 (559/20 : ℚ) :=
      h.mem_iff.1 (by decide)
    have := List.eq_of_mem_replicate h27
    norm_num at this

/-! ## Materialization is centered (claim C5) -/

/-- The total span of a sequence of panel lengths laid out with uniform
gaps, as computed by `solveAndBuildPanels`:
`Σ lengths + (count − 1) · gap`. -/
def spanOf (l : List ℚ) (gap : ℚ) : ℚ := l.sum + ((l.length : ℚ) - 1) * gap

theorem mem_buildRowPanels {gap yPos ph : ℚ} {r : ℕ} :
    ∀ (cw : List ℚ) (xPos : ℚ) (c0 : ℕ), ∀ p ∈ buildRowPanels gap yPos ph r cw xPos c0,
      c0 ≤ p.col ∧ p.col - c0 < cw.length ∧ p.row = r ∧ p.y = yPos ∧
      p.x = xPos + ((cw.take (p.col - c0)).map (fun v => v + gap)).sum := by
  intro cw
  induction cw with
  | nil => intro xPos c0 p hp; exact absurd hp (List.not_mem_nil p)
  | cons pw rest ih =>
    intro xPos c0 p hp
    rcases List.mem_cons.1 hp with rfl | hp'
    · exact ⟨le_refl _, by simp, rfl, rfl, by simp⟩
    · obtain ⟨h1, h2, h3, h4, h5⟩ := ih (xPos + pw + gap) (c0 + 1) p hp'
      refine ⟨by omega, by simp only [List.length_cons]; omega, h3, h4, ?_⟩
      have hcol : p.col - c0 = (p.col - (c0 + 1)) + 1 := by omega
      rw [hcol, List.take_succ_cons, List.map_cons, List.sum_cons, h5]
      ring

theorem buildGridRows_row_ge {cw : List ℚ} {gap offX : ℚ} :
    ∀ (rh : List ℚ) (yPos : ℚ) (r0 : ℕ), ∀ p ∈ buildGridRows cw gap offX rh yPos r0,
      r0 ≤ p.row := by
  intro rh
  induction rh with
  | nil => intro yPos r0 p hp; exact absurd hp (List.not_mem_nil p)
  | cons ph rest ih =>
    intro yPos r0 p hp
    rcases List.mem_append.1 hp with hp' | hp'
    · obtain ⟨_, _, hrow, _, _⟩ := mem_buildRowPanels cw offX 0 p hp'
      omega
    · have := ih (yPos + ph + gap) (r0 + 1) p hp'
      omega

theorem mem_buildGridRows {cw : List ℚ} {gap offX : ℚ} :
    ∀ (rh : List ℚ) (yPos : ℚ) (r0 : ℕ), ∀ p ∈ buildGridRows cw gap offX rh yPos r0,
      p.x = offX + ((cw.take p.col).map (fun v => v + gap)).sum ∧
      p.y = yPos + ((rh.take (p.row - r0)).map (fun v => v + gap)).sum := by
  intro rh
  induction rh with
  | nil => intro yPos r0 p hp; exact absurd hp (List.not_mem_nil p)
  | cons ph rest ih =>
    intro yPos r0 p hp
    rcases List.mem_append.1 hp with hp' | hp'
    · obtain ⟨_, _, hrow, hy, hx⟩ := mem_buildRowPanels cw offX 0 p hp'
      refine ⟨by simpa using hx, ?_⟩
      rw [hrow]
      simp [hy]
    · obtain ⟨hx, hy⟩ := ih (yPos + ph + gap) (r0 + 1) p hp'
      have hrow : r0 + 1 ≤ p.row :=
        buildGridRows_row_ge rest (yPos + ph + gap) (r0 + 1) p hp'
      refine ⟨hx, ?_⟩
      have hr : p.row - r0 = (p.row - (r0 + 1)) + 1 := by omega
      rw [hr, List.take_succ_cons, List.map_cons, List.sum_cons, hy]
      ring

/-- C5: the materialized panel grid is centered — every panel's position is
exactly `(wallExtent − totalSpan)/2` on each axis plus the accumulated
lengths-plus-gaps of the preceding columns/rows (`totalSpan` being
`Σ lengths + (n−1)·gap` of the arranged lengths).  Proved without the
claim's `totalSpan ≤ wallExtent` proviso: the formula holds exactly for any
span. -/
theorem solveAndBuildPanels_centered (st : PanelState) :
    ∀ p ∈ (solveAndBuildPanels st).panels,
      p.x = (st.wallW - spanOf (solveAndBuildPanels st).colWidths st.panelGap) / 2 +
        (((solveAndBuildPanels st).colWidths.take p.col).map (fun v => v + st.panelGap)).sum ∧
      p.y = (st.wallH - spanOf (solveAndBuildPanels st).rowHeights st.panelGap) / 2 +
        (((solveAndBuildPanels st).rowHeights.take p.row).map (fun v => v + st.panelGap)).sum := by
  simp only [solveAndBuildPanels]
  split
  · intro p hp; exact absurd hp (List.not_mem_nil p)
  · split
    · intro p hp; exact absurd hp (List.not_mem_nil p)
    · intro p hp
      simp only at hp ⊢
      obtain ⟨hx, hy⟩ := mem_buildGridRows _ _ 0 p hp
      refine ⟨?_, ?_⟩
      · rw [hx]; rfl
      · rw [hy]; simp [spanOf]

/-! ## Staggered-pattern odd rows (claim C7) -/

/-- C7: with the staggered (hex) pattern and `cols ≥ 2`, every odd-indexed
candidate row contains exactly `cols − 1` points, and each of its points
sits at the even-row position of the same column index laterally shifted by
half the column pitch `(areaW/(cols−1))/2`, at the same row pitch (the y
coordinate `latticeY` does not depend on the pattern). -/
theorem candidateRow_hex_odd (m areaW : ℚ) (cols : ℤ) (r : ℕ)
    (hcols : 2 ≤ cols) (hr : r % 2 = 1) :
    ((candidateRow GridPattern.hex m areaW cols r).length : ℤ) = cols - 1 ∧
    ∀ c : ℕ, latticeX GridPattern.hex m areaW cols r c =
      latticeX GridPattern.hex m areaW cols 0 c + (areaW / ((cols : ℚ) - 1)) / 2 := by
  constructor
  · have h1 : cCols GridPattern.hex cols r = cols - 1 := by simp [cCols, hr]
    simp only [candidateRow, List.length_map, List.length_range, h1]
    omega
  · intro c
    have h1 : (1 : ℤ) < cols := by omega
    simp only [latticeX, hr, h1, if_true, true_and, and_true, reduceIte]
    norm_num
    ring

/-- Witness for C7: `cols = 5`, `r = 1`, margin 1, interior width 8, point 2. -/
theorem candidateRow_hex_odd_witness :
    ((candidateRow GridPattern.hex 1 8 5 1).length : ℤ) = 5 - 1 ∧
    latticeX GridPattern.hex 1 8 5 1 2 =
      latticeX GridPattern.hex 1 8 5 0 2 + ((8 : ℚ) / (((5 : ℤ) : ℚ) - 1)) / 2 :=
  ⟨(candidateRow_hex_odd 1 8 5 1 (by decide) rfl).1,
    (candidateRow_hex_odd 1 8 5 1 (by decide) rfl).2 2⟩

/-! ## Soundness of emitted apertures (claims C4 and C8) -/

theorem holeAt_some {powFn : ℚ → ℚ → JNum} {st : PanelState} {p : Panel}
    {thresh minD maxD : ℚ} {sizes : List ℚ} {lx ly : ℚ} {hh : PanelHole}
    (h : holeAt powFn st p thresh minD maxD sizes lx ly = some hh) :
    hh.x = lx ∧ hh.y = ly ∧
      sampleImage st ((p.x + lx) / st.wallW) ((p.y + ly) / st.wallH) ≤ thresh := by
  unfold holeAt at h
  split at h
  · simp at h
  · simp only at h
    split at h
    · simp at h
    · injection h with h'
      subst h'
      exact ⟨rfl, rfl, le_of_not_lt (by assumption)⟩

theorem mem_panelHolesFor {powFn : ℚ → ℚ → JNum} {st : PanelState} {p : Panel}
    {thresh minD maxD : ℚ} {sizes : List ℚ} {areaW areaH : ℚ} {cols rows : ℤ}
    {hh : PanelHole}
    (h : hh ∈ panelHolesFor powFn st p thresh minD maxD sizes areaW areaH cols rows) :
    ∃ r, r < rows.toNat ∧ ∃ c, c < (cCols st.gridPattern cols r).toNat ∧
      holeAt powFn st p thresh minD maxD sizes
        (latticeX st.gridPattern st.margin areaW cols r c)
        (latticeY st.margin areaH rows r) = some hh := by
  unfold panelHolesFor candidateRow at h
  rcases List.mem_flatMap.1 h with ⟨r, hr, hmem⟩
  rcases List.mem_filterMap.1 hmem with ⟨lx, hlx, hsome⟩
  rcases List.mem_map.1 hlx with ⟨c, hc, rfl⟩
  exact ⟨r, List.mem_range.1 hr, c, List.mem_range.1 hc, hsome⟩

theorem latticeX_bounds (pattern : GridPattern) (m areaW : ℚ) (cols : ℤ) (r c : ℕ)
    (hW : 0 < areaW) (hc : c < (cCols pattern cols r).toNat) :
    m ≤ latticeX pattern m areaW cols r c ∧ latticeX pattern m areaW cols r c ≤ m + areaW := by
  by_cases h1 : (1 : ℤ) < cols
  · have hk : (0 : ℚ) < (cols : ℚ) - 1 := by
      have : (1 : ℚ) < (cols : ℚ) := by exact_mod_cast h1
      linarith
    have hs : (0 : ℚ) < areaW / ((cols : ℚ) - 1) := div_pos hW hk
    have hks : areaW = ((cols : ℚ) - 1) * (areaW / ((cols : ℚ) - 1)) := by
      field_simp
    by_cases hodd : pattern = GridPattern.hex ∧ r % 2 = 1
    · have hcc : (c : ℤ) < cols - 1 := by
        have : cCols pattern cols r = cols - 1 := by simp [cCols, hodd]
        omega
      have hcq : (c : ℚ) ≤ ((cols : ℚ) - 1) - 1 := by
        have : (c : ℤ) ≤ cols - 2 := by omega
        have h2 : ((c : ℤ) : ℚ) ≤ ((cols - 2 : ℤ) : ℚ) := by exact_mod_cast this
        push_cast at h2
        linarith
      simp only [latticeX, if_pos h1, if_pos hodd]
      constructor
      · have : 0 ≤ (c : ℚ) * (areaW / ((cols : ℚ) - 1)) :=
          mul_nonneg (Nat.cast_nonneg c) (le_of_lt hs)
        nlinarith
      · nlinarith [mul_le_mul_of_nonneg_right hcq (le_of_lt hs)]
    · have hcc : (c : ℤ) < cols := by
        have : cCols pattern cols r = cols := by simp [cCols, hodd]
        omega
      have hcq : (c : ℚ) ≤ (cols : ℚ) - 1 := by
        have : (c : ℤ) ≤ cols - 1 := by omega
        have h2 : ((c : ℤ) : ℚ) ≤ ((cols - 1 : ℤ) : ℚ) := by exact_mod_cast this
        push_cast at h2
        linarith
      simp only [latticeX, if_pos h1, if_neg hodd]
      constructor
      · have : 0 ≤ (c : ℚ) * (areaW / ((cols : ℚ) - 1)) :=
          mul_nonneg (Nat.cast_nonneg c) (le_of_lt hs)
        linarith
      · nlinarith [mul_le_mul_of_nonneg_right hcq (le_of_lt hs)]
  · simp only [latticeX, if_neg h1]
    constructor
    · split <;> simp <;> linarith
    · split <;> simp <;> linarith

theorem latticeY_bounds (m areaH : ℚ) (rows : ℤ) (r : ℕ)
    (hH : 0 < areaH) (hr : r < rows.toNat) :
    m ≤ latticeY m areaH rows r ∧ latticeY m areaH rows r ≤ m + areaH := by
  by_cases h1 : (1 : ℤ) < rows
  · have hk : (0 : ℚ) < (rows : ℚ) - 1 := by
      have : (1 : ℚ) < (rows : ℚ) := by exact_mod_cast h1
      linarith
    have hs : (0 : ℚ) < areaH / ((rows : ℚ) - 1) := div_pos hH hk
    have hks : areaH = ((rows : ℚ) - 1) * (areaH / ((rows : ℚ) - 1)) := by
      field_simp
    have hrq : (r : ℚ) ≤ (rows : ℚ) - 1 := by
      have : (r : ℤ) ≤ rows - 1 := by omega
      have h2 : ((r : ℤ) : ℚ) ≤ ((rows - 1 : ℤ) : ℚ) := by exact_mod_cast this
      push_cast at h2
      linarith
    simp only [latticeY, if_pos h1]
    constructor
    · have : 0 ≤ (r : ℚ) * (areaH / ((rows : ℚ) - 1)) :=
        mul_nonneg (Nat.cast_nonneg r) (le_of_lt hs)
      linarith
    · nlinarith [mul_le_mul_of_nonneg_right hrq (le_of_lt hs)]
  · simp only [latticeY, if_neg h1]
    constructor <;> linarith

theorem holesLoop_sound (powFn : ℚ → ℚ → JNum) (st : PanelState)
    (thresh minD maxD : ℚ) (sizes : List ℚ) :
    ∀ (ps : List Panel) (gi : ℤ × ℤ),
      ∀ p' ∈ (holesLoop powFn st thresh minD maxD sizes ps gi).1, ∀ hh ∈ p'.holes,
        sampleImage st ((p'.x + hh.x) / st.wallW) ((p'.y + hh.y) / st.wallH) ≤ thresh ∧
        st.margin ≤ hh.x ∧ hh.x ≤ p'.w - st.margin ∧
        st.margin ≤ hh.y ∧ hh.y ≤ p'.h - st.margin := by
  intro ps
  induction ps with
  | nil => intro gi p' hp'; simp [holesLoop] at hp'
  | cons p rest ih =>
    intro gi p' hp'
    simp only [holesLoop] at hp'
    split at hp'
    · rcases List.mem_cons.1 hp' with rfl | hp2
      · intro hh hhh; simp at hhh
      · exact ih _ p' hp2
    · rcases List.mem_cons.1 hp' with rfl | hp2
      · intro hh hhh
        have hWH : ¬ (p.w - 2 * st.margin ≤ 0 ∨ p.h - 2 * st.margin ≤ 0) := by assumption
        push_neg at hWH
        obtain ⟨hW, hH⟩ := hWH
        simp only at hhh
        obtain ⟨r, hrlt, c, hclt, hsome⟩ := mem_panelHolesFor hhh
        obtain ⟨hx, hy, hbr⟩ := holeAt_some hsome
        have hbx := latticeX_bounds st.gridPattern st.margin _ _ _ _ hW hclt
        have hby := latticeY_bounds st.margin _ _ _ hH hrlt
        rw [← hx] at hbx
        rw [← hy] at hby
        refine ⟨?_, ?_, ?_, ?_, ?_⟩
        · simpa only [hx, hy] using hbr
        · exact hbx.1
        · have := hbx.2; simp only; linarith
        · exact hby.1
        · have := hby.2; simp only; linarith
      · exact ih _ p' hp2

/-- Shared soundness of `computeAllHoles`: every emitted aperture passed the
brightness gate and lies in its panel's margin-trimmed interior. -/
theorem computeAllHoles_sound (powFn : ℚ → ℚ → JNum) (st : PanelState) :
    ∀ p ∈ (computeAllHoles powFn st).1, ∀ hh ∈ p.holes,
      sampleImage st ((p.x + hh.x) / st.wallW) ((p.y + hh.y) / st.wallH) ≤
        st.threshold / 255 ∧
      st.margin ≤ hh.x ∧ hh.x ≤ p.w - st.margin ∧
      st.margin ≤ hh.y ∧ hh.y ≤ p.h - st.margin := by
  intro p hp hh hhh
  unfold computeAllHoles at hp
  split at hp
  · rcases List.mem_map.1 hp with ⟨q, _, rfl⟩
    simp at hhh
  · simp only at hp
    split at hp
    · rcases List.mem_map.1 hp with ⟨q, _, rfl⟩
      simp at hhh
    · exact holesLoop_sound powFn st (st.threshold / 255) _ _ _ _ _ p hp hh hhh

/-- C4: no aperture is emitted at a lattice point whose sampled brightness
times 255 exceeds the threshold — every hole of every panel returned by
`computeAllHoles` satisfies `sampledBrightness · 255 ≤ threshold` at its
position (for every panel list, grayscale field, threshold, gamma and hole
catalog, the empty catalog included, where no hole is emitted at all). -/
theorem computeAllHoles_threshold_gate (powFn : ℚ → ℚ → JNum) (st : PanelState) :
    ∀ p ∈ (computeAllHoles powFn st).1, ∀ hh ∈ p.holes,
      sampleImage st ((p.x + hh.x) / st.wallW) ((p.y + hh.y) / st.wallH) * 255 ≤
        st.threshold := by
  intro p hp hh hhh
  have h := (computeAllHoles_sound powFn st p hp hh hhh).1
  have h2 := mul_le_mul_of_nonneg_right h (by norm_num : (0 : ℚ) ≤ 255)
  calc sampleImage st ((p.x + hh.x) / st.wallW) ((p.y + hh.y) / st.wallH) * 255
      ≤ st.threshold / 255 * 255 := h2
    _ = st.threshold := by field_simp

/-- C8: every aperture produced by `computeAllHoles` lies within its owning
panel's margin-trimmed interior rectangle:
`margin ≤ x ≤ panelWidth − margin` and `margin ≤ y ≤ panelHeight − margin`
(panels whose interior is not positive receive no apertures at all, so the
bound holds unconditionally). -/
theorem computeAllHoles_interior (powFn : ℚ → ℚ → JNum) (st : PanelState) :
    ∀ p ∈ (computeAllHoles powFn st).1, ∀ hh ∈ p.holes,
      st.margin ≤ hh.x ∧ hh.x ≤ p.w - st.margin ∧
      st.margin ≤ hh.y ∧ hh.y ≤ p.h - st.margin := by
  intro p hp hh hhh
  exact (computeAllHoles_sound powFn st p hp hh hhh).2

/-! ## Defensive early exits on empty catalogs (claim C9) -/

/-- C9: an empty panel-size catalog makes `solveAxis` return the empty
list, and an empty enabled hole-size catalog makes `computeAllHoles` return
every panel with an empty aperture list — both are ordinary early returns
of total functions, not faults. -/
theorem empty_catalogs_defensive :
    (∀ (w gap : ℚ), solveAxis w gap [] = []) ∧
    (∀ (powFn : ℚ → ℚ → JNum) (st : PanelState), st.enabledHoleSizes = [] →
      ∀ p ∈ (computeAllHoles powFn st).1, p.holes = []) := by
  refine ⟨fun w gap => by simp [solveAxis], ?_⟩
  intro powFn st hempty p hp
  unfold computeAllHoles at hp
  split at hp
  · rcases List.mem_map.1 hp with ⟨q, _, rfl⟩
    rfl
  · rw [hempty] at hp
    simp only at hp
    split at hp
    · rcases List.mem_map.1 hp with ⟨q, _, rfl⟩
      rfl
    · exact absurd rfl (by assumption)

/-- Concrete one-panel state with an empty hole-size catalog (for the C9
witness). -/
def stEmptyHoles : PanelState where
  grayPixels := some (fun _ => 0)
  imgWidth := 2
  imgHeight := 2
  wallW := 10
  wallH := 10
  panelGap := 1/4
  enabledWidths := [24, 48]
  enabledHeights := [96, 120]
  margin := 1
  spacingMode := SpacingMode.spacing
  spacingX := 2
  spacingY := 2
  minSpacing := 2
  gridCols := 46
  gridRows := 118
  gridPattern := GridPattern.rect
  enabledHoleSizes := []
  threshold := 245
  gamma := 1
  selectedLayoutIdx := 0
  colWidths := []
  rowHeights := []
  panels := [⟨0, 0, 10, 10, 0, 0, (65, 1), (10, 10), []⟩]

/-- A default panel (for reading list elements in witnesses). -/
def defaultPanel : Panel := ⟨0, 0, 0, 0, 0, 0, (0, 0), (0, 0), []⟩

/-- A default hole (for reading list elements in witnesses). -/
def defaultHole : PanelHole := ⟨0, 0, 0⟩

/-- Witness for C9 at gap 1, wall 7, and at the one-panel state with an
empty hole-size catalog. -/
theorem empty_catalogs_defensive_witness :
    solveAxis 7 1 [] = [] ∧
    ((computeAllHoles (fun q _ => JNum.num q) stEmptyHoles).1.getD 0 defaultPanel).holes
      = [] :=
  ⟨empty_catalogs_defensive.1 7 1,
    empty_catalogs_defensive.2 (fun q _ => JNum.num q) stEmptyHoles rfl
      ((computeAllHoles (fun q _ => JNum.num q) stEmptyHoles).1.getD 0 defaultPanel)
      (by decide)⟩

/-! ## The unguarded division at threshold 0 (claim C10) -/

/-- One 10×10 panel on a 10×10 wall, an all-zero grayscale field,
threshold 0, gamma 1, hole catalog {1/4, 1/2}: every lattice point samples
brightness exactly 0 (for the C10 scenario). -/
def stThresholdZero : PanelState where
  grayPixels := some (fun _ => 0)
  imgWidth := 2
  imgHeight := 2
  wallW := 10
  wallH := 10
  panelGap := 1/4
  enabledWidths := [24, 48]
  enabledHeights := [96, 120]
  margin := 1
  spacingMode := SpacingMode.spacing
  spacingX := 2
  spacingY := 2
  minSpacing := 2
  gridCols := 46
  gridRows := 118
  gridPattern := GridPattern.rect
  enabledHoleSizes := [1/2, 1/4]
  threshold := 0
  gamma := 1
  selectedLayoutIdx := 0
  colWidths := []
  rowHeights := []
  panels := [⟨0, 0, 10, 10, 0, 0, (65, 1), (10, 10), []⟩]

/-- C10: with threshold 0 (an in-range input) and a lattice point sampling
brightness exactly 0, the skip test `brightness > threshold/255` does not
fire, the diameter computation divides 0 by 0 (`NaN`), and an aperture is
still emitted whose diameter is the smallest catalog entry — the `NaN`
poisons every distance comparison in the snapping scan, so the scan's
initial value, the smallest size, wins.  Here all 25 lattice points of the
panel behave that way, for every finite-base power function. -/
theorem threshold_zero_division_by_zero (powFn : ℚ → ℚ → JNum) :
    stThresholdZero.threshold = 0 ∧
    jdivQ (sampleImage stThresholdZero (1/10) (1/10))
      (stThresholdZero.threshold / 255) = JNum.nan ∧
    (computeAllHoles powFn stThresholdZero).1.map
      (fun p => (p.holes.length, p.holes.all (fun hh => decide (hh.d = 1/4)))) =
      [(25, true)] ∧
    (jsSort (fun a b => decide (a ≤ b)) stThresholdZero.enabledHoleSizes).headD 0 = 1/4 :=
  ⟨rfl, rfl, rfl, rfl⟩

/-! ## The 240×120 layout example (claim C6) -/

/-- Wall 240×120, gap 0.25, width catalog {24, 48}, height catalog
{96, 120, 144} — the worked example of the specification.  Only the wall,
gap, catalog and selection fields are read by `solveAndBuildPanels`. -/
def st240 : PanelState where
  grayPixels := none
  imgWidth := 0
  imgHeight := 0
  wallW := 240
  wallH := 120
  panelGap := 1/4
  enabledWidths := [24, 48]
  enabledHeights := [96, 120, 144]
  margin := 1
  spacingMode := SpacingMode.spacing
  spacingX := 2
  spacingY := 2
  minSpacing := 2
  gridCols := 46
  gridRows := 118
  gridPattern := GridPattern.rect
  enabledHoleSizes := []
  threshold := 245
  gamma := 1
  selectedLayoutIdx := 0
  colWidths := []
  rowHeights := []
  panels := []

/-- C6 (counterexample to the claim as stated): the top-ranked layout
option for wall 240×120 uses height 120 as a *single* row (the wall is 120
high; two rows cannot fit), not the claimed two rows. -/
theorem layout_example_counterexample :
    ((solveAndBuildPanels st240).layoutOptions.getD 0 defaultOption).h.numPanels = 1 ∧
    ((solveAndBuildPanels st240).layoutOptions.getD 0 defaultOption).h.counts.filter
        (fun p => p.2 ≠ 0) = [(120, 1)] ∧
    ¬ ((solveAndBuildPanels st240).layoutOptions.getD 0 defaultOption).h.numPanels = 2 := by
  decide

/-- C6 (amended): for wall 240×120, gap 0.25, widths {24, 48}, heights
{96, 120, 144}, the top-ranked layout option uses height 120 — one full
row, 100% height coverage — and no returned layout option uses height 144
at all (a single 144 panel already exceeds the 120 wall height plus
tolerance), verifying coverage-first ranking. -/
theorem layout_example_amended :
    ((solveAndBuildPanels st240).layoutOptions.getD 0 defaultOption).h.counts.filter
        (fun p => p.2 ≠ 0) = [(120, 1)] ∧
    ((solveAndBuildPanels st240).layoutOptions.getD 0 defaultOption).h.coverage = 1 ∧
    ((solveAndBuildPanels st240).layoutOptions.getD 0 defaultOption).h.numPanels = 1 ∧
    ((solveAndBuildPanels st240).layoutOptions.all (fun o =>
      o.h.counts.all (fun p => decide (p.1 ≠ 144) || decide (p.2 = 0)))) = true := by
  decide

/-! ## Remaining witnesses (concrete instantiations of the universally
quantified membership hypotheses) -/

/-- Witness for C4 at the `stThresholdZero` state, first panel, first hole. -/
theorem computeAllHoles_threshold_gate_witness :
    sampleImage stThresholdZero
        ((((computeAllHoles (fun q _ => JNum.num q) stThresholdZero).1.getD 0
            defaultPanel).x +
          ((((computeAllHoles (fun q _ => JNum.num q) stThresholdZero).1.getD 0
            defaultPanel).holes.getD 0 defaultHole)).x) / stThresholdZero.wallW)
        ((((computeAllHoles (fun q _ => JNum.num q) stThresholdZero).1.getD 0
            defaultPanel).y +
          ((((computeAllHoles (fun q _ => JNum.num q) stThresholdZero).1.getD 0
            defaultPanel).holes.getD 0 defaultHole)).y) / stThresholdZero.wallH) * 255 ≤
      stThresholdZero.threshold :=
  computeAllHoles_threshold_gate (fun q _ => JNum.num q) stThresholdZero
    ((computeAllHoles (fun q _ => JNum.num q) stThresholdZero).1.getD 0 defaultPanel)
    (by decide)
    ((((computeAllHoles (fun q _ => JNum.num q) stThresholdZero).1.getD 0
      defaultPanel).holes.getD 0 defaultHole))
    (by decide)

/-- Witness for C8 at the `stThresholdZero` state, first panel, first hole. -/
theorem computeAllHoles_interior_witness :
    stThresholdZero.margin ≤
      (((computeAllHoles (fun q _ => JNum.num q) stThresholdZero).1.getD 0
        defaultPanel).holes.getD 0 defaultHole).x ∧
    (((computeAllHoles (fun q _ => JNum.num q) stThresholdZero).1.getD 0
        defaultPanel).holes.getD 0 defaultHole).x ≤
      ((computeAllHoles (fun q _ => JNum.num q) stThresholdZero).1.getD 0
        defaultPanel).w - stThresholdZero.margin ∧
    stThresholdZero.margin ≤
      (((computeAllHoles (fun q _ => JNum.num q) stThresholdZero).1.getD 0
        defaultPanel).holes.getD 0 defaultHole).y ∧
    (((computeAllHoles (fun q _ => JNum.num q) stThresholdZero).1.getD 0
        defaultPanel).holes.getD 0 defaultHole).y ≤
      ((computeAllHoles (fun q _ => JNum.num q) stThresholdZero).1.getD 0
        defaultPanel).h - stThresholdZero.margin :=
  computeAllHoles_interior (fun q _ => JNum.num q) stThresholdZero
    ((computeAllHoles (fun q _ => JNum.num q) stThresholdZero).1.getD 0 defaultPanel)
    (by decide)
    ((((computeAllHoles (fun q _ => JNum.num q) stThresholdZero).1.getD 0
      defaultPanel).holes.getD 0 defaultHole))
    (by decide)

/-- Witness for C5 at the `st240` state, first materialized panel. -/
theorem solveAndBuildPanels_centered_witness :
    ((solveAndBuildPanels st240).panels.getD 0 defaultPanel).x =
      (st240.wallW - spanOf (solveAndBuildPanels st240).colWidths st240.panelGap) / 2 +
        (((solveAndBuildPanels st240).colWidths.take
          ((solveAndBuildPanels st240).panels.getD 0 defaultPanel).col).map
            (fun v => v + st240.panelGap)).sum ∧
    ((solveAndBuildPanels st240).panels.getD 0 defaultPanel).y =
      (st240.wallH - spanOf (solveAndBuildPanels st240).rowHeights st240.panelGap) / 2 +
        (((solveAndBuildPanels st240).rowHeights.take
          ((solveAndBuildPanels st240).panels.getD 0 defaultPanel).row).map
            (fun v => v + st240.panelGap)).sum :=
  solveAndBuildPanels_centered st240
    ((solveAndBuildPanels st240).panels.getD 0 defaultPanel) (by decide)

end PerfPanel
